import Mathlib

set_option maxRecDepth 8192
set_option exponentiation.threshold 1030

/-!
A formal model of the feedback aggregator in `src/app.py`
(`compare_retrospectives`), together with theorems about its behaviour.

File contents are modelled as lists of characters (the decoded text).
The tabular parser mirrors the behaviour of the delimited-text reader used
by the source: lines are split on newlines, a header line is located by
substring search, cells are split on commas, empty cells are missing
values, rows shorter than the header are padded with missing values, and a
row wider than the header aborts the parse with a tokenizer error.
Numeric coercion of vote cells accepts an optional sign, digits, an
optional fractional part (truncated toward zero) and an optional decimal
exponent; the infinity words and numerals overflowing double precision
coerce to a non-finite value, on which the integer cast raises and aborts
the file; anything else is missing and silently defaults to zero.
-/

/-- Split a character list at every occurrence of `sep`, like the
`str.split` call on line 37 of `src/app.py` (so the empty text yields one
empty piece, and a trailing separator yields a trailing empty piece). -/
def splitOnChar (sep : Char) : List Char → List (List Char)
  | [] => [[]]
  | c :: rest =>
    let r := splitOnChar sep rest
    if c = sep then [] :: r
    else
      match r with
      | [] => [[c]]
      | hd :: tl => (c :: hd) :: tl

/-- Substring containment test, modelling Python's `in` on strings
(used for marker detection on lines 40 and 67–68 of `src/app.py`). -/
def containsSeq (pat : List Char) : List Char → Bool
  | [] => pat.isEmpty
  | c :: rest => pat.isPrefixOf (c :: rest) || containsSeq pat rest

/-- The lines of a file's content (line 37 of `src/app.py`). -/
def linesOf (content : List Char) : List (List Char) :=
  splitOnChar '\n' content

/-- Index of the first line containing the marker substring
(the `next(...)` scans on lines 40 and 67 of `src/app.py`). -/
def findMarker (lines : List (List Char)) (pat : List Char) : Option Nat :=
  lines.findIdx? (fun l => containsSeq pat l)

def digitVal (c : Char) : Nat := c.toNat - '0'.toNat

def allDigits (l : List Char) : Bool := l.all (fun c => c.isDigit)

def digitsVal (l : List Char) : Nat :=
  l.foldl (fun n c => 10 * n + digitVal c) 0

/-- Parse a nonempty all-digit run as a natural number. -/
def parseDigits? (l : List Char) : Option Nat :=
  if l.isEmpty then none
  else if allDigits l then some (digitsVal l) else none

/-- The outcome of numeric coercion of one votes cell (line 55 of
`src/app.py`): a finite value truncated toward zero by the integer cast, a
non-finite value (infinity, which the later integer cast refuses), or a
missing value (the cell is not numeric and `errors="coerce"` turns it
into NaN, which the zero fill then replaces). -/
inductive Coerced where
  | num (z : Int)
  | infinite
  | nan
deriving DecidableEq, Repr

/-- Case-insensitive test for the infinity words the numeric parser
accepts. -/
def isInfWord (l : List Char) : Bool :=
  l.map Char.toLower = "inf".data || l.map Char.toLower = "infinity".data

/-- Split a numeral at its exponent marker, when present. -/
def splitExp (l : List Char) : List Char × Option (List Char) :=
  match l.findIdx? (fun c => c = 'e' || c = 'E') with
  | none => (l, none)
  | some i => (l.take i, some (l.drop (i + 1)))

/-- Parse a mantissa `digits[.digits]` exactly: the result `(m, scale)`
denotes the value `m / 10 ^ scale`. -/
def mantissa? (l : List Char) : Option (Nat × Nat) :=
  match splitOnChar '.' l with
  | [ip] =>
    if ip.isEmpty then none
    else if allDigits ip then some (digitsVal ip, 0) else none
  | [ip, fp] =>
    if ip.isEmpty then none
    else if allDigits ip && allDigits fp then
      some (digitsVal (ip ++ fp), fp.length)
    else none
  | _ => none

/-- Parse a (possibly signed) exponent. -/
def expVal? (l : List Char) : Option Int :=
  match l with
  | '-' :: rest => (parseDigits? rest).map (fun n => -(n : Int))
  | '+' :: rest => (parseDigits? rest).map (fun n => (n : Int))
  | _ => (parseDigits? l).map (fun n => (n : Int))

/-- The smallest positive real that double-precision round-to-nearest
sends to infinity: the midpoint between the largest finite double and
`2 ^ 1024`. -/
def floatInfThreshold : Nat := 2 ^ 1024 - 2 ^ 970

/-- Whether the exact decimal `m / 10 ^ scale * 10 ^ ex` overflows to
double-precision infinity. -/
def decimalIsInf (m scale : Nat) (ex : Int) : Bool :=
  if (scale : Int) ≤ ex then
    decide (floatInfThreshold ≤ m * 10 ^ (ex - scale).toNat)
  else
    decide (floatInfThreshold * 10 ^ ((scale : Int) - ex).toNat ≤ m)

/-- The exact decimal `m / 10 ^ scale * 10 ^ ex` truncated toward zero. -/
def decimalTruncate (m scale : Nat) (ex : Int) : Nat :=
  if (scale : Int) ≤ ex then m * 10 ^ (ex - scale).toNat
  else m / 10 ^ ((scale : Int) - ex).toNat

/-- Coerce an unsigned votes cell: the infinity words and overflowing
numerals give infinity, other numerals give their truncated value, and
everything else is a missing value. Finite values are modelled by exact
decimal truncation; the double-precision rounding of values beyond 2^53
and the machine-integer wrap of the cast are not modelled. -/
def coerceUnsigned (l : List Char) : Coerced :=
  if isInfWord l then .infinite
  else
    match splitExp l with
    | (mant, none) =>
      match mantissa? mant with
      | none => .nan
      | some p =>
        if decimalIsInf p.1 p.2 0 then .infinite
        else .num (decimalTruncate p.1 p.2 0)
    | (mant, some exPart) =>
      match mantissa? mant, expVal? exPart with
      | some p, some ex =>
        if decimalIsInf p.1 p.2 ex then .infinite
        else .num (decimalTruncate p.1 p.2 ex)
      | _, _ => .nan

/-- Numeric coercion of one votes cell, sign included (line 55 of
`src/app.py`). -/
def coerceVote (l : List Char) : Coerced :=
  match l with
  | '-' :: rest =>
    match coerceUnsigned rest with
    | .num z => .num (-z)
    | .infinite => .infinite
    | .nan => .nan
  | '+' :: rest => coerceUnsigned rest
  | _ => coerceUnsigned l

/-- The integer a votes cell contributes once the file passed the
non-finite check: its finite value, or `0` after the NaN fill. -/
def votesToInt (v : List Char) : Int :=
  match coerceVote v with
  | .num z => z
  | _ => 0

/-- The error message of the exception the integer cast raises on a
non-finite value. -/
def intCastMsg : String :=
  "Cannot convert non-finite values (NA or INF) to integer"

/-- A parsed table: header cells plus data rows; a missing cell is `none`. -/
structure Csv where
  header : List (List Char)
  rows : List (List (Option (List Char)))
deriving DecidableEq, Repr

/-- Convert a split line into cells of a table with `n` columns: empty
cells become missing values and short rows are padded with missing
values. -/
def toCells (n : Nat) (cs : List (List Char)) : List (Option (List Char)) :=
  (cs.map (fun c => if c.isEmpty then none else some c))
    ++ List.replicate (n - cs.length) none

/-- Parse the file's lines as a table, skipping the first `skiprows` lines
(the reads on lines 46 and 71 of `src/app.py`). Blank lines are skipped;
the first remaining line is the header. A row with more cells than the
header raises a tokenizer error; with no lines left the reader raises an
empty-data error. -/
def readCsv (lines : List (List Char)) (skiprows : Nat) : Except String Csv :=
  match (lines.drop skiprows).filter (fun l => !l.isEmpty) with
  | [] => .error "No columns to parse from file"
  | hdr :: rest =>
    if rest.any (fun l => (splitOnChar ',' l).length > (splitOnChar ',' hdr).length) then
      .error "Error tokenizing data"
    else
      .ok ⟨splitOnChar ',' hdr,
           rest.map (fun l => toCells (splitOnChar ',' hdr).length (splitOnChar ',' l))⟩

/-- First index of a named column in the table's header (how the source's
column selections resolve names to cells). -/
def colIndex (csv : Csv) (name : List Char) : Option Nat :=
  csv.header.indexOf? name

/-- One row of the primary table after the column selection and row drop
of line 54 of `src/app.py`: the description and votes cells when both are
present, dropped otherwise. -/
def rowCells (di vi : Nat) (row : List (Option (List Char))) :
    Option (List Char × List Char) :=
  match row.getD di none, row.getD vi none with
  | some d, some v => some (d, v)
  | _, _ => none

/-- The surviving (description, votes cell) pairs of the primary table. -/
def primaryCells (csv : Csv) (di vi : Nat) : List (List Char × List Char) :=
  csv.rows.filterMap (rowCells di vi)

/-- Whether any surviving votes cell coerces to a non-finite value, in
which case the integer cast of line 55 of `src/app.py` raises for the
whole column. -/
def hasNonFinite (csv : Csv) (di vi : Nat) : Bool :=
  (primaryCells csv di vi).any (fun p => decide (coerceVote p.2 = Coerced.infinite))

/-- One row of the primary table reduced to a (description, votes) pair:
rows with a missing description or votes cell are dropped, and a votes
cell that coerces to a missing value contributes `0` (lines 54–55 of
`src/app.py`; meaningful when the non-finite check passed). -/
def rowPair (di vi : Nat) (row : List (Option (List Char))) :
    Option (List Char × Int) :=
  (rowCells di vi row).map (fun p => (p.1, votesToInt p.2))

/-- The (description, votes) pairs of the primary table, in row order. -/
def primaryPairs (csv : Csv) (di vi : Nat) : List (List Char × Int) :=
  csv.rows.filterMap (rowPair di vi)

/-- One row of the Work Items table reduced to a (description, work item
id) pair; rows with either cell missing are skipped (lines 74–78 of
`src/app.py`). -/
def workRowPair (fi ii : Nat) (row : List (Option (List Char))) :
    Option (List Char × List Char) :=
  match row.getD fi none, row.getD ii none with
  | some d, some w => some (d, w)
  | _, _ => none

/-- The (description, work item id) pairs of the Work Items table. -/
def workPairs (csv : Csv) (fi ii : Nat) : List (List Char × List Char) :=
  csv.rows.filterMap (workRowPair fi ii)

/-- Accumulate `v` votes for description `d`, inserting a new entry at the
end on first encounter (lines 61–64 of `src/app.py`; the association list
models the insertion-ordered dictionary `feedback_counts`). -/
def addVotes : List (List Char × Int) → List Char → Int → List (List Char × Int)
  | [], d, v => [(d, v)]
  | (k, c) :: rest, d, v =>
    if k = d then (k, c + v) :: rest else (k, c) :: addVotes rest d v

def addRow (c : List (List Char × Int)) (p : List Char × Int) :
    List (List Char × Int) :=
  addVotes c p.1 p.2

/-- Set the task id for description `d`, overwriting any previous value
(line 78 of `src/app.py`; models assignment into `feedback_tasks`). -/
def setTask : List (List Char × List Char) → List Char → List Char →
    List (List Char × List Char)
  | [], d, t => [(d, t)]
  | (k, x) :: rest, d, t =>
    if k = d then (k, t) :: rest else (k, x) :: setTask rest d t

def putTask (t : List (List Char × List Char)) (p : List Char × List Char) :
    List (List Char × List Char) :=
  setTask t p.1 p.2

/-- Dictionary lookup with default `None`
(`feedback_tasks.get(feedback, None)` on line 88 of `src/app.py`). -/
def getTask (tasks : List (List Char × List Char)) (d : List Char) :
    Option (List Char) :=
  match tasks with
  | [] => none
  | (k, v) :: rest => if k = d then some v else getTask rest d

/-- A per-file log entry (the four message templates appended to
`processing_results` in `src/app.py`). -/
inductive Outcome where
  | warnNoHeader (name : String)
  | warnMissingCols (name : String)
  | errorMsg (name : String) (msg : String)
  | success (name : String)
deriving DecidableEq, Repr

/-- An uploaded file: its name and decoded text content. -/
structure RawFile where
  name : String
  content : List Char
deriving DecidableEq, Repr

/-- The mutable state threaded through the per-file loop of
`compare_retrospectives`: `feedback_counts`, `feedback_tasks`,
`processing_results`. -/
structure AggState where
  counts : List (List Char × Int)
  tasks : List (List Char × List Char)
  logs : List Outcome
deriving DecidableEq, Repr

def initState : AggState := ⟨[], [], []⟩

def primaryMarker : List Char := "Type,Description,Votes".data

def workMarker : List Char :=
  "Feedback Description,Work Item Title,Work Item Type,Work Item Id,".data

def descName : List Char := "Description".data

def votesName : List Char := "Votes".data

def fdName : List Char := "Feedback Description".data

def wiName : List Char := "Work Item Id".data

/-- One iteration of the per-file loop (lines 33–83 of `src/app.py`):
find the primary marker (else warn and continue), parse the table from it
(a raised parse error is caught and logged), check the required columns
(else warn and continue), coerce the votes column (a non-finite value
makes the integer cast raise, which is caught and logged before anything
was accumulated), accumulate votes, then look for the Work Items section
and record task ids (a raised parse error there is caught and logged
after the votes were already accumulated). -/
def processFile (st : AggState) (f : RawFile) : AggState :=
  match findMarker (linesOf f.content) primaryMarker with
  | none => { st with logs := st.logs ++ [Outcome.warnNoHeader f.name] }
  | some hIdx =>
    match readCsv (linesOf f.content) hIdx with
    | .error e => { st with logs := st.logs ++ [Outcome.errorMsg f.name e] }
    | .ok csv =>
      match colIndex csv descName, colIndex csv votesName with
      | some di, some vi =>
        if hasNonFinite csv di vi then
          { st with logs := st.logs ++ [Outcome.errorMsg f.name intCastMsg] }
        else
          match findMarker (linesOf f.content) workMarker with
          | none =>
            { st with counts := (primaryPairs csv di vi).foldl addRow st.counts,
                      logs := st.logs ++ [Outcome.success f.name] }
          | some wIdx =>
            match readCsv (linesOf f.content) wIdx with
            | .error e =>
              { st with counts := (primaryPairs csv di vi).foldl addRow st.counts,
                        logs := st.logs ++ [Outcome.errorMsg f.name e] }
            | .ok wcsv =>
              match colIndex wcsv fdName, colIndex wcsv wiName with
              | some fi, some ii =>
                { st with counts := (primaryPairs csv di vi).foldl addRow st.counts,
                          tasks := (workPairs wcsv fi ii).foldl putTask st.tasks,
                          logs := st.logs ++ [Outcome.success f.name] }
              | _, _ =>
                { st with counts := (primaryPairs csv di vi).foldl addRow st.counts,
                          logs := st.logs ++ [Outcome.success f.name] }
      | _, _ => { st with logs := st.logs ++ [Outcome.warnMissingCols f.name] }

/-- One record of the aggregation result: the tuples
`(feedback, task_id, votes)` returned by `compare_retrospectives`. -/
structure FeedbackRecord where
  feedback : List Char
  task : Option (List Char)
  votes : Int
deriving DecidableEq, Repr

def sentinelText : List Char := "No valid feedback found.".data

/-- Insert a record into a list sorted by votes descending, placing it
after existing records with at least as many votes. -/
def insertRec (x : FeedbackRecord) : List FeedbackRecord → List FeedbackRecord
  | [] => [x]
  | y :: ys => if y.votes ≤ x.votes then x :: y :: ys else y :: insertRec x ys

/-- The stable descending sort by votes performed on line 93 of
`src/app.py`. -/
def sortDesc (l : List FeedbackRecord) : List FeedbackRecord :=
  l.foldr insertRec []

/-- The state after the per-file loop over all input files. -/
def aggState (files : List RawFile) : AggState :=
  files.foldl processFile initState

def aggCounts (files : List RawFile) : List (List Char × Int) :=
  (aggState files).counts

def aggTasks (files : List RawFile) : List (List Char × List Char) :=
  (aggState files).tasks

/-- The pre-sort filtered record list built by the comprehension on lines
88–90 of `src/app.py`. -/
def filteredOf (st : AggState) (min_votes max_votes : Int) : List FeedbackRecord :=
  (st.counts.filter (fun p => decide (min_votes ≤ p.2) && decide (p.2 ≤ max_votes))).map
    (fun p => ⟨p.1, getTask st.tasks p.1, p.2⟩)

/-- The aggregator (`compare_retrospectives`, lines 17–95 of
`src/app.py`): run the per-file loop, return the sentinel record if no
feedback was accumulated, otherwise filter by the inclusive vote range and
sort by votes descending. -/
def compare_retrospectives (files : List RawFile) (min_votes max_votes : Int) :
    List FeedbackRecord × List Outcome :=
  let st := aggState files
  if st.counts.isEmpty then ([⟨sentinelText, none, 0⟩], st.logs)
  else (sortDesc (filteredOf st min_votes max_votes), st.logs)

/-- The (description, votes) pairs a single file contributes to the
running totals: empty whenever the primary marker is missing, the parse
raises, a required column is absent, or the vote coercion raises on a
non-finite value (and unaffected by the Work Items stage). -/
def filePrimaryRows (f : RawFile) : List (List Char × Int) :=
  match findMarker (linesOf f.content) primaryMarker with
  | none => []
  | some hIdx =>
    match readCsv (linesOf f.content) hIdx with
    | .error _ => []
    | .ok csv =>
      match colIndex csv descName, colIndex csv votesName with
      | some di, some vi =>
        if hasNonFinite csv di vi then [] else primaryPairs csv di vi
      | _, _ => []

/-- The (description, work item id) pairs a single file contributes to
the task-id map: empty unless the primary stage fully succeeded (vote
coercion included), the Work Items marker is present, its parse succeeds
and its required columns are present. -/
def fileWorkRows (f : RawFile) : List (List Char × List Char) :=
  match findMarker (linesOf f.content) primaryMarker with
  | none => []
  | some hIdx =>
    match readCsv (linesOf f.content) hIdx with
    | .error _ => []
    | .ok csv =>
      match colIndex csv descName, colIndex csv votesName with
      | some di, some vi =>
        if hasNonFinite csv di vi then []
        else
          match findMarker (linesOf f.content) workMarker with
          | none => []
          | some wIdx =>
            match readCsv (linesOf f.content) wIdx with
            | .error _ => []
            | .ok wcsv =>
              match colIndex wcsv fdName, colIndex wcsv wiName with
              | some fi, some ii => workPairs wcsv fi ii
              | _, _ => []
      | _, _ => []

/-- The log entry a single file appends. -/
def fileLog (f : RawFile) : Outcome :=
  match findMarker (linesOf f.content) primaryMarker with
  | none => Outcome.warnNoHeader f.name
  | some hIdx =>
    match readCsv (linesOf f.content) hIdx with
    | .error e => Outcome.errorMsg f.name e
    | .ok csv =>
      match colIndex csv descName, colIndex csv votesName with
      | some di, some vi =>
        if hasNonFinite csv di vi then Outcome.errorMsg f.name intCastMsg
        else
          match findMarker (linesOf f.content) workMarker with
          | none => Outcome.success f.name
          | some wIdx =>
            match readCsv (linesOf f.content) wIdx with
            | .error e => Outcome.errorMsg f.name e
            | .ok _ => Outcome.success f.name
      | _, _ => Outcome.warnMissingCols f.name

/-- All primary-table rows of the batch, in file order then row order. -/
def allRows (files : List RawFile) : List (List Char × Int) :=
  files.flatMap filePrimaryRows

/-- All recorded Work Items rows of the batch, in processing order. -/
def allWork (files : List RawFile) : List (List Char × List Char) :=
  files.flatMap fileWorkRows

/-- The keys of an association list. -/
def keysOf {α : Type} (c : List (List Char × α)) : List (List Char) :=
  c.map (fun p => p.1)

/-- The sum of the votes recorded for description `d` in a row list. -/
def rowsSum (rows : List (List Char × Int)) (d : List Char) : Int :=
  ((rows.filter (fun p => p.1 = d)).map (fun p => p.2)).sum

/-- The votes a single file contributes for description `d`. -/
def fileVotes (f : RawFile) (d : List Char) : Int :=
  rowsSum (filePrimaryRows f) d

/-- The total votes the batch records for description `d`: the sum of
every file's contribution. -/
def totalVotes (files : List RawFile) (d : List Char) : Int :=
  (files.map (fun f => fileVotes f d)).sum

/-- The task id supplied by the last write for description `d` in a
processing-ordered list of Work Items rows. -/
def lastWrite (s : List (List Char × List Char)) (d : List Char) :
    Option (List Char) :=
  ((s.filter (fun p => p.1 = d)).map (fun p => p.2)).getLast?

/-- The pre-sort filtered record list of a batch, in first-encounter
order. -/
def preFiltered (files : List RawFile) (min_votes max_votes : Int) :
    List FeedbackRecord :=
  filteredOf (aggState files) min_votes max_votes

/-- The batch's descriptions in first-encounter order: scanning all
primary rows in processing order, each description is appended on its
first appearance. -/
def encounterOrder (files : List RawFile) : List (List Char) :=
  ((allRows files).map (fun p => p.1)).foldl
    (fun acc d => if d ∈ acc then acc else acc ++ [d]) []

/-- The primary stage of a file when it succeeds: the parsed table and
the indices of the `Description` and `Votes` columns. -/
def primaryStage (f : RawFile) : Option (Csv × Nat × Nat) :=
  match findMarker (linesOf f.content) primaryMarker with
  | none => none
  | some hIdx =>
    match readCsv (linesOf f.content) hIdx with
    | .error _ => none
    | .ok csv =>
      match colIndex csv descName, colIndex csv votesName with
      | some di, some vi =>
        if hasNonFinite csv di vi then none else some (csv, di, vi)
      | _, _ => none

/-- The Work Items scan of a file taken on its own, as section 4.1 step 5
of the specification words it (performed independently of the
primary-table steps): find the Work Items marker, parse a table from it,
and collect the (description, work item id) pairs with both cells
present. -/
def workScanSpec (f : RawFile) : List (List Char × List Char) :=
  match findMarker (linesOf f.content) workMarker with
  | none => []
  | some wIdx =>
    match readCsv (linesOf f.content) wIdx with
    | .error _ => []
    | .ok wcsv =>
      match colIndex wcsv fdName, colIndex wcsv wiName with
      | some fi, some ii => workPairs wcsv fi ii
      | _, _ => []

/-- Example file: a primary table with one row (X, 3 votes). -/
def fileA : RawFile := ⟨"a.csv", "Type,Description,Votes\nWent Well,X,3".data⟩

/-- Example file: a primary table with rows (X, 4) and (Y, 10). -/
def fileB : RawFile :=
  ⟨"b.csv", "Type,Description,Votes\nWent Well,X,4\nNeeds Improvement,Y,10".data⟩

/-- Example file: a primary table with one row (W, 7), giving a vote tie
with the total of X across fileA and fileB. -/
def fileC : RawFile := ⟨"c.csv", "Type,Description,Votes\nMeh,W,7".data⟩

/-- Example file: a primary table holding a negative vote value. -/
def fileNeg : RawFile :=
  ⟨"neg.csv", "Type,Description,Votes\nBad,Z,-4\nGood,X,9".data⟩

/-- Example file: no primary marker at all. -/
def fileNone : RawFile := ⟨"plain.csv", "Hello\nWorld".data⟩

/-- Example file: a Work Items section only, with no primary marker. -/
def fileC2 : RawFile :=
  ⟨"w.csv",
   "Feedback Description,Work Item Title,Work Item Type,Work Item Id,\nX,Improve Docs,Task,12,".data⟩

/-- Example file: a primary table for X plus a Work Items section linking
X to work item 12. -/
def fileW1 : RawFile :=
  ⟨"w1.csv",
   "Type,Description,Votes,,\nWent Well,X,3,,\nFeedback Description,Work Item Title,Work Item Type,Work Item Id,\nX,Fix,Task,12,".data⟩

/-- Example file: a primary table for X plus a Work Items section linking
X to work item 99. -/
def fileW2 : RawFile :=
  ⟨"w2.csv",
   "Type,Description,Votes,,\nWent Well,X,4,,\nFeedback Description,Work Item Title,Work Item Type,Work Item Id,\nX,Fix,Task,99,".data⟩

/-- Example file: the primary table parses (six columns), but the Work
Items section ends with a row wider than its header, so the second parse
raises a tokenizer error after the votes were accumulated. -/
def fileX : RawFile :=
  ⟨"x.csv",
   "Type,Description,Votes,A,B,C\nWent Well,X,3,,,\nFeedback Description,Work Item Title,Work Item Type,Work Item Id,\nX,T,Task,12,\nY,a,b,c,d,e".data⟩

/-- Example file: one parseable row (X, 3) and one row whose votes cell
is the word inf, on which the integer cast raises. -/
def fileInf : RawFile :=
  ⟨"inf.csv", "Type,Description,Votes\nWent Well,X,3\nOops,Y,inf".data⟩

/-- Example file: a normal row, a row with a missing description, and a
row with a non-numeric votes cell. -/
def fileMix : RawFile :=
  ⟨"mix.csv", "Type,Description,Votes\nA,X,3\nB,,5\nC,Y,abc".data⟩

/-- The table fileMix parses to. -/
def csvMix : Csv :=
  ⟨["Type".data, "Description".data, "Votes".data],
   [[some "A".data, some "X".data, some "3".data],
    [some "B".data, none, some "5".data],
    [some "C".data, some "Y".data, some "abc".data]]⟩

example :
    compare_retrospectives
      [⟨"a.csv", "Type,Description,Votes\nWent Well,X,3".data⟩,
       ⟨"b.csv", "Type,Description,Votes\nWent Well,X,4\nNeeds Improvement,Y,10".data⟩]
      0 100
    = ([⟨"Y".data, none, 10⟩, ⟨"X".data, none, 7⟩],
       [Outcome.success "a.csv", Outcome.success "b.csv"]) := by decide

theorem processFile_eq (st : AggState) (f : RawFile) :
    processFile st f =
      ⟨(filePrimaryRows f).foldl addRow st.counts,
       (fileWorkRows f).foldl putTask st.tasks,
       st.logs ++ [fileLog f]⟩ := by
  unfold processFile filePrimaryRows fileWorkRows fileLog
  cases h1 : findMarker (linesOf f.content) primaryMarker with
  | none => rfl
  | some hIdx =>
    cases h2 : readCsv (linesOf f.content) hIdx with
    | error e => simp [h2]
    | ok csv =>
      cases h3 : colIndex csv descName with
      | none => simp [h2, h3]
      | some di =>
        cases h4 : colIndex csv votesName with
        | none => simp [h2, h3, h4]
        | some vi =>
          cases hnf : hasNonFinite csv di vi with
          | true => simp [h2, h3, h4, hnf]
          | false =>
            cases h5 : findMarker (linesOf f.content) workMarker with
            | none => simp [h2, h3, h4, hnf, h5]
            | some wIdx =>
              cases h6 : readCsv (linesOf f.content) wIdx with
              | error e => simp [h2, h3, h4, hnf, h5, h6]
              | ok wcsv =>
                cases h7 : colIndex wcsv fdName with
                | none => simp [h2, h3, h4, hnf, h5, h6, h7]
                | some fi =>
                  cases h8 : colIndex wcsv wiName with
                  | none => simp [h2, h3, h4, hnf, h5, h6, h7, h8]
                  | some ii => simp [h2, h3, h4, hnf, h5, h6, h7, h8]

theorem foldl_processFile_counts (files : List RawFile) :
    ∀ st : AggState,
      (files.foldl processFile st).counts =
        (files.flatMap filePrimaryRows).foldl addRow st.counts := by
  induction files with
  | nil => intro st; rfl
  | cons f fs ih =>
    intro st
    rw [List.foldl_cons, ih, processFile_eq]
    simp [List.foldl_append]

theorem foldl_processFile_tasks (files : List RawFile) :
    ∀ st : AggState,
      (files.foldl processFile st).tasks =
        (files.flatMap fileWorkRows).foldl putTask st.tasks := by
  induction files with
  | nil => intro st; rfl
  | cons f fs ih =>
    intro st
    rw [List.foldl_cons, ih, processFile_eq]
    simp [List.foldl_append]

theorem aggCounts_eq (files : List RawFile) :
    aggCounts files = (allRows files).foldl addRow [] :=
  foldl_processFile_counts files initState

theorem aggTasks_eq (files : List RawFile) :
    aggTasks files = (allWork files).foldl putTask [] :=
  foldl_processFile_tasks files initState

theorem rowsSum_nil (d : List Char) : rowsSum [] d = 0 := rfl

theorem rowsSum_cons (p : List Char × Int) (l : List (List Char × Int)) (d : List Char) :
    rowsSum (p :: l) d = (if p.1 = d then p.2 else 0) + rowsSum l d := by
  by_cases h : p.1 = d <;> simp [rowsSum, h]

theorem rowsSum_append (a b : List (List Char × Int)) (d : List Char) :
    rowsSum (a ++ b) d = rowsSum a d + rowsSum b d := by
  simp [rowsSum, List.filter_append]

theorem rowsSum_addVotes (c : List (List Char × Int)) (d : List Char) (v : Int)
    (e : List Char) :
    rowsSum (addVotes c d v) e = rowsSum c e + (if d = e then v else 0) := by
  induction c with
  | nil =>
    by_cases h : d = e <;> simp [addVotes, rowsSum, h]
  | cons p rest ih =>
    by_cases hk : p.1 = d
    · rw [show addVotes (p :: rest) d v = (p.1, p.2 + v) :: rest by
        simp [addVotes, hk]]
      rw [rowsSum_cons, rowsSum_cons]
      by_cases he : p.1 = e
      · rw [if_pos he, if_pos he, if_pos (hk ▸ he)]; ring
      · rw [if_neg he, if_neg he, if_neg (fun hde => he (hk.trans hde))]; ring
    · rw [show addVotes (p :: rest) d v = p :: addVotes rest d v by
        simp [addVotes, hk]]
      rw [rowsSum_cons, rowsSum_cons, ih]; ring

theorem rowsSum_foldl (rows : List (List Char × Int)) (d : List Char) :
    ∀ c, rowsSum (rows.foldl addRow c) d = rowsSum c d + rowsSum rows d := by
  induction rows with
  | nil => intro c; simp [rowsSum_nil]
  | cons p ps ih =>
    intro c
    rw [List.foldl_cons, ih, rowsSum_cons]
    show rowsSum (addVotes c p.1 p.2) d + _ = _
    rw [rowsSum_addVotes]; ring

theorem rowsSum_allRows (files : List RawFile) (d : List Char) :
    rowsSum (allRows files) d = totalVotes files d := by
  induction files with
  | nil => rfl
  | cons f fs ih =>
    show rowsSum (filePrimaryRows f ++ allRows fs) d = _
    rw [rowsSum_append, ih]
    simp [totalVotes, fileVotes]

theorem rowsSum_aggCounts (files : List RawFile) (d : List Char) :
    rowsSum (aggCounts files) d = totalVotes files d := by
  rw [aggCounts_eq, rowsSum_foldl, rowsSum_nil, rowsSum_allRows]; ring

theorem keysOf_addVotes (c : List (List Char × Int)) (d : List Char) (v : Int) :
    keysOf (addVotes c d v) =
      if d ∈ keysOf c then keysOf c else keysOf c ++ [d] := by
  induction c with
  | nil => simp [addVotes, keysOf]
  | cons p rest ih =>
    by_cases hk : p.1 = d
    · rw [show addVotes (p :: rest) d v = (p.1, p.2 + v) :: rest by
        simp [addVotes, hk]]
      have hmem : d ∈ keysOf (p :: rest) := by
        simp only [keysOf, List.map_cons]
        exact List.mem_cons.mpr (Or.inl hk.symm)
      rw [if_pos hmem]
      simp [keysOf]
    · rw [show addVotes (p :: rest) d v = p :: addVotes rest d v by
        simp [addVotes, hk]]
      simp only [keysOf, List.map_cons] at ih ⊢
      rw [ih]
      by_cases hr : d ∈ rest.map (fun p => p.1)
      · rw [if_pos hr, if_pos (List.mem_cons.mpr (Or.inr hr))]
      · have hno : d ∉ p.1 :: rest.map (fun p => p.1) := by
          intro hin
          rcases List.mem_cons.mp hin with h | h
          · exact hk h.symm
          · exact hr h
        rw [if_neg hr, if_neg hno, List.cons_append]

theorem mem_keysOf_addVotes (c : List (List Char × Int)) (d : List Char) (v : Int)
    (e : List Char) :
    e ∈ keysOf (addVotes c d v) ↔ e ∈ keysOf c ∨ e = d := by
  rw [keysOf_addVotes]
  by_cases h : d ∈ keysOf c
  · rw [if_pos h]
    constructor
    · exact fun he => Or.inl he
    · rintro (he | rfl) <;> [exact he; exact h]
  · rw [if_neg h]
    simp

theorem keysOf_nodup_addVotes (c : List (List Char × Int)) (d : List Char) (v : Int)
    (h : (keysOf c).Nodup) : (keysOf (addVotes c d v)).Nodup := by
  rw [keysOf_addVotes]
  by_cases hm : d ∈ keysOf c
  · rwa [if_pos hm]
  · rw [if_neg hm, List.nodup_append]
    refine ⟨h, List.nodup_singleton d, ?_⟩
    intro a ha hain
    rw [List.mem_singleton] at hain
    exact hm (hain ▸ ha)

theorem keysOf_nodup_foldl (rows : List (List Char × Int)) :
    ∀ c, (keysOf c).Nodup → (keysOf (rows.foldl addRow c)).Nodup := by
  induction rows with
  | nil => exact fun c h => h
  | cons p ps ih =>
    intro c h
    exact ih _ (keysOf_nodup_addVotes c p.1 p.2 h)

theorem aggCounts_keys_nodup (files : List RawFile) :
    (keysOf (aggCounts files)).Nodup := by
  rw [aggCounts_eq]
  exact keysOf_nodup_foldl (allRows files) [] List.nodup_nil

theorem mem_keysOf_foldl (rows : List (List Char × Int)) (e : List Char) :
    ∀ c, e ∈ keysOf (rows.foldl addRow c) ↔
      e ∈ keysOf c ∨ e ∈ rows.map (fun p => p.1) := by
  induction rows with
  | nil => intro c; simp
  | cons p ps ih =>
    intro c
    rw [List.foldl_cons, ih]
    show (e ∈ keysOf (addVotes c p.1 p.2) ∨ _) ↔ _
    rw [mem_keysOf_addVotes]
    simp [or_assoc, or_comm, or_left_comm]

theorem mem_keysOf_aggCounts (files : List RawFile) (e : List Char) :
    e ∈ keysOf (aggCounts files) ↔ e ∈ (allRows files).map (fun p => p.1) := by
  rw [aggCounts_eq, mem_keysOf_foldl]
  simp [keysOf]

theorem filter_keyOf_eq_nil (l : List (List Char × Int)) (d : List Char)
    (h : d ∉ keysOf l) : l.filter (fun p => p.1 = d) = [] := by
  rw [List.filter_eq_nil_iff]
  intro p hp hrev
  apply h
  have hpd : p.1 = d := by simpa using hrev
  exact hpd ▸ List.mem_map_of_mem (fun q => q.1) hp

/-- In an association list with distinct keys, the entries at key `d` are
exactly the single entry whose value is the accumulated sum. -/
theorem filter_keyOf_of_nodup (l : List (List Char × Int)) (hnd : (keysOf l).Nodup)
    (d : List Char) :
    l.filter (fun p => p.1 = d) =
      if d ∈ keysOf l then [(d, rowsSum l d)] else [] := by
  induction l with
  | nil => simp [keysOf]
  | cons p rest ih =>
    have hnd' : (keysOf rest).Nodup := (List.nodup_cons.mp hnd).2
    have hpn : p.1 ∉ keysOf rest := (List.nodup_cons.mp hnd).1
    by_cases hpd : p.1 = d
    · have hdr : d ∉ keysOf rest := hpd ▸ hpn
      have hfr : rest.filter (fun q => q.1 = d) = [] := filter_keyOf_eq_nil rest d hdr
      have hmem : d ∈ keysOf (p :: rest) := by simp [keysOf, hpd.symm]
      rw [if_pos hmem, rowsSum_cons, if_pos hpd]
      have : rowsSum rest d = 0 := by simp [rowsSum, hfr]
      rw [this, add_zero]
      have : (p :: rest).filter (fun q => q.1 = d) = p :: rest.filter (fun q => q.1 = d) := by
        simp [List.filter_cons, hpd]
      rw [this, hfr]
      have : p = (d, p.2) := by
        cases p; simp_all
      rw [← this]
    · have hstep : (p :: rest).filter (fun q => q.1 = d) = rest.filter (fun q => q.1 = d) := by
        simp [List.filter_cons, hpd]
      have hmem : (d ∈ keysOf (p :: rest)) ↔ (d ∈ keysOf rest) := by
        simp only [keysOf, List.map_cons, List.mem_cons]
        constructor
        · rintro (h | h)
          · exact absurd h.symm hpd
          · exact h
        · exact fun h => Or.inr h
      rw [hstep, ih hnd', rowsSum_cons, if_neg hpd, zero_add]
      by_cases hdr : d ∈ keysOf rest
      · rw [if_pos hdr, if_pos (hmem.mpr hdr)]
      · rw [if_neg hdr, if_neg (fun h => hdr (hmem.mp h))]

theorem getTask_setTask (t : List (List Char × List Char)) (k v d : List Char) :
    getTask (setTask t k v) d = if k = d then some v else getTask t d := by
  induction t with
  | nil => by_cases h : k = d <;> simp [setTask, getTask, h]
  | cons p rest ih =>
    obtain ⟨a, b⟩ := p
    by_cases hk : a = k
    · rw [show setTask ((a, b) :: rest) k v = (a, v) :: rest by simp [setTask, hk]]
      by_cases hd : a = d
      · rw [show getTask ((a, v) :: rest) d = some v by simp [getTask, hd],
            if_pos (hk.symm.trans hd)]
      · rw [show getTask ((a, v) :: rest) d = getTask rest d by simp [getTask, hd],
            if_neg (fun h => hd (hk.trans h)),
            show getTask ((a, b) :: rest) d = getTask rest d by simp [getTask, hd]]
    · rw [show setTask ((a, b) :: rest) k v = (a, b) :: setTask rest k v by
        simp [setTask, hk]]
      by_cases hd : a = d
      · have hkd : ¬ k = d := fun h => hk (hd.trans h.symm)
        rw [show getTask ((a, b) :: setTask rest k v) d = some b by simp [getTask, hd],
            if_neg hkd,
            show getTask ((a, b) :: rest) d = some b by simp [getTask, hd]]
      · rw [show getTask ((a, b) :: setTask rest k v) d = getTask (setTask rest k v) d by
            simp [getTask, hd],
            ih,
            show getTask ((a, b) :: rest) d = getTask rest d by simp [getTask, hd]]

theorem getLast?_cons_or {α : Type} (a : α) (l : List α) :
    (a :: l).getLast? = (l.getLast?).or (some a) := by
  cases h : l.getLast? <;> simp [List.getLast?_cons, h, Option.or]

theorem lastWrite_cons (p : List Char × List Char) (s : List (List Char × List Char))
    (d : List Char) :
    lastWrite (p :: s) d =
      if p.1 = d then (lastWrite s d).or (some p.2) else lastWrite s d := by
  by_cases h : p.1 = d <;> simp [lastWrite, List.filter_cons, h, getLast?_cons_or]

theorem lastWrite_append (s₁ s₂ : List (List Char × List Char)) (d : List Char) :
    lastWrite (s₁ ++ s₂) d = (lastWrite s₂ d).or (lastWrite s₁ d) := by
  induction s₁ with
  | nil => simp [lastWrite, Option.or_none]
  | cons p ps ih =>
    rw [List.cons_append, lastWrite_cons, lastWrite_cons, ih]
    by_cases h : p.1 = d
    · rw [if_pos h, if_pos h, Option.or_assoc]
    · rw [if_neg h, if_neg h]

theorem getTask_foldl (s : List (List Char × List Char)) (d : List Char) :
    ∀ t, getTask (s.foldl putTask t) d = (lastWrite s d).or (getTask t d) := by
  induction s with
  | nil => intro t; simp [lastWrite, Option.none_or]
  | cons p ps ih =>
    intro t
    rw [List.foldl_cons, ih]
    show (lastWrite ps d).or (getTask (setTask t p.1 p.2) d) = _
    rw [getTask_setTask, lastWrite_cons]
    by_cases h : p.1 = d
    · rw [if_pos h, if_pos h, Option.or_assoc]
      rfl
    · rw [if_neg h, if_neg h]

theorem getTask_aggTasks (files : List RawFile) (d : List Char) :
    getTask (aggTasks files) d = lastWrite (allWork files) d := by
  rw [aggTasks_eq, getTask_foldl]
  simp [getTask, Option.or_none]

theorem insertRec_perm (x : FeedbackRecord) (l : List FeedbackRecord) :
    (insertRec x l).Perm (x :: l) := by
  induction l with
  | nil => exact List.Perm.refl _
  | cons y ys ih =>
    by_cases h : y.votes ≤ x.votes
    · simp [insertRec, if_pos h]
    · simp only [insertRec, if_neg h]
      exact (ih.cons y).trans (List.Perm.swap x y ys)

theorem sortDesc_perm (l : List FeedbackRecord) : (sortDesc l).Perm l := by
  induction l with
  | nil => exact List.Perm.refl _
  | cons x xs ih =>
    show (insertRec x (sortDesc xs)).Perm (x :: xs)
    exact (insertRec_perm x (sortDesc xs)).trans (ih.cons x)

theorem insertRec_chain (x : FeedbackRecord) (l : List FeedbackRecord)
    (h : List.Chain' (fun a b => b.votes ≤ a.votes) l) :
    List.Chain' (fun a b => b.votes ≤ a.votes) (insertRec x l) := by
  induction l with
  | nil => simp [insertRec]
  | cons y ys ih =>
    by_cases hyx : y.votes ≤ x.votes
    · simp only [insertRec, if_pos hyx]
      exact List.chain'_cons.mpr ⟨hyx, h⟩
    · simp only [insertRec, if_neg hyx]
      have hys : List.Chain' (fun a b => b.votes ≤ a.votes) ys := (List.chain'_cons'.mp h).2
      have hhead : ∀ z ∈ ys.head?, z.votes ≤ y.votes := (List.chain'_cons'.mp h).1
      refine List.chain'_cons'.mpr ⟨?_, ih hys⟩
      intro z hz
      cases ys with
      | nil =>
        simp [insertRec] at hz
        subst hz
        exact le_of_lt (lt_of_not_le hyx)
      | cons w ws =>
        by_cases hwx : w.votes ≤ x.votes
        · simp only [insertRec, if_pos hwx, List.head?_cons, Option.mem_some_iff] at hz
          subst hz
          exact le_of_lt (lt_of_not_le hyx)
        · simp only [insertRec, if_neg hwx, List.head?_cons, Option.mem_some_iff] at hz
          subst hz
          exact hhead w (by simp)

theorem sortDesc_chain (l : List FeedbackRecord) :
    List.Chain' (fun a b => b.votes ≤ a.votes) (sortDesc l) := by
  induction l with
  | nil => simp [sortDesc]
  | cons x xs ih => exact insertRec_chain x (sortDesc xs) ih

theorem insertRec_filter_votes (x : FeedbackRecord) (l : List FeedbackRecord) (v : Int) :
    (insertRec x l).filter (fun r => r.votes = v) =
      if x.votes = v then x :: l.filter (fun r => r.votes = v)
      else l.filter (fun r => r.votes = v) := by
  induction l with
  | nil => by_cases h : x.votes = v <;> simp [insertRec, h]
  | cons y ys ih =>
    by_cases hyx : y.votes ≤ x.votes
    · simp only [insertRec, if_pos hyx]
      by_cases hx : x.votes = v <;> simp [List.filter_cons, hx]
    · simp only [insertRec, if_neg hyx]
      by_cases hy : y.votes = v
      · by_cases hx : x.votes = v
        · exact absurd (le_of_eq (hy.trans hx.symm)) hyx
        · simp [List.filter_cons, hy, hx, ih]
      · by_cases hx : x.votes = v <;> simp [List.filter_cons, hy, hx, ih]

theorem sortDesc_filter_votes (l : List FeedbackRecord) (v : Int) :
    (sortDesc l).filter (fun r => r.votes = v) = l.filter (fun r => r.votes = v) := by
  induction l with
  | nil => rfl
  | cons x xs ih =>
    show (insertRec x (sortDesc xs)).filter _ = _
    rw [insertRec_filter_votes, List.filter_cons]
    by_cases hx : x.votes = v <;> simp [hx, ih]

theorem compare_fst_of_nil (files : List RawFile) (min_votes max_votes : Int)
    (h : aggCounts files = []) :
    (compare_retrospectives files min_votes max_votes).1 =
      [⟨sentinelText, none, 0⟩] := by
  have hb : (aggState files).counts.isEmpty = true := by
    rw [List.isEmpty_iff]; exact h
  simp only [compare_retrospectives, hb, if_true]

theorem compare_fst_of_ne (files : List RawFile) (min_votes max_votes : Int)
    (h : aggCounts files ≠ []) :
    (compare_retrospectives files min_votes max_votes).1 =
      sortDesc (preFiltered files min_votes max_votes) := by
  have hb : (aggState files).counts.isEmpty = false := by
    rw [List.isEmpty_eq_false]; exact h
  simp only [compare_retrospectives, hb, Bool.false_eq_true, if_false, preFiltered]

theorem mem_preFiltered (files : List RawFile) (min_votes max_votes : Int)
    (r : FeedbackRecord) (h : r ∈ preFiltered files min_votes max_votes) :
    (r.feedback, r.votes) ∈ aggCounts files
    ∧ min_votes ≤ r.votes ∧ r.votes ≤ max_votes
    ∧ r.task = getTask (aggTasks files) r.feedback := by
  unfold preFiltered filteredOf at h
  rcases List.mem_map.mp h with ⟨p, hp, hpr⟩
  rcases List.mem_filter.mp hp with ⟨hpc, hcond⟩
  simp only [Bool.and_eq_true, decide_eq_true_eq] at hcond
  subst hpr
  refine ⟨?_, hcond.1, hcond.2, rfl⟩
  simpa [Prod.mk.eta] using hpc

/-- A vote total stored in the accumulated map is the batch total for its
description. -/
theorem mem_aggCounts_votes (files : List RawFile) (d : List Char) (v : Int)
    (h : (d, v) ∈ aggCounts files) : v = totalVotes files d := by
  have hnd := aggCounts_keys_nodup files
  have hmem : d ∈ keysOf (aggCounts files) :=
    List.mem_map_of_mem (fun p => p.1) h
  have hfil := filter_keyOf_of_nodup (aggCounts files) hnd d
  rw [if_pos hmem] at hfil
  have hin : (d, v) ∈ (aggCounts files).filter (fun p => p.1 = d) :=
    List.mem_filter.mpr ⟨h, by simp⟩
  rw [hfil] at hin
  have hv := List.mem_singleton.mp hin
  have : v = rowsSum (aggCounts files) d := congrArg Prod.snd hv
  rw [this, rowsSum_aggCounts]

/-- The filtered output restricted to one description: the single record
with the batch total when the description was accumulated and its total
passes the vote filter, else nothing. -/
theorem out_filter_eq (files : List RawFile) (min_votes max_votes : Int)
    (d : List Char) (h : aggCounts files ≠ []) :
    (((compare_retrospectives files min_votes max_votes).1.filter
        (fun r => r.feedback = d)).map (fun r => r.votes))
      = if d ∈ keysOf (aggCounts files)
            ∧ min_votes ≤ totalVotes files d ∧ totalVotes files d ≤ max_votes
        then [totalVotes files d] else [] := by
  rw [compare_fst_of_ne files min_votes max_votes h]
  have hperm :
      (((sortDesc (preFiltered files min_votes max_votes)).filter
          (fun r => r.feedback = d)).map (fun r => r.votes)).Perm
        (((preFiltered files min_votes max_votes).filter
          (fun r => r.feedback = d)).map (fun r => r.votes)) :=
    ((sortDesc_perm _).filter _).map _
  have hpre :
      ((preFiltered files min_votes max_votes).filter
          (fun r => r.feedback = d)).map (fun r => r.votes)
        = if d ∈ keysOf (aggCounts files)
              ∧ min_votes ≤ totalVotes files d ∧ totalVotes files d ≤ max_votes
          then [totalVotes files d] else [] := by
    unfold preFiltered filteredOf
    rw [List.filter_map]
    have hcomp :
        ((fun r : FeedbackRecord => decide (r.feedback = d)) ∘
          (fun p : List Char × Int => (⟨p.1, getTask (aggState files).tasks p.1, p.2⟩ : FeedbackRecord)))
          = fun p : List Char × Int => decide (p.1 = d) := by
      funext p; rfl
    rw [hcomp, List.filter_comm]
    have : ((aggState files).counts.filter (fun p => decide (p.1 = d)))
        = (aggCounts files).filter (fun p => p.1 = d) := rfl
    rw [this, filter_keyOf_of_nodup (aggCounts files) (aggCounts_keys_nodup files) d]
    by_cases hmem : d ∈ keysOf (aggCounts files)
    · rw [if_pos hmem, rowsSum_aggCounts]
      by_cases hq : min_votes ≤ totalVotes files d ∧ totalVotes files d ≤ max_votes
      · rw [if_pos ⟨hmem, hq⟩]
        simp [List.filter_cons, hq.1, hq.2]
      · rw [if_neg (fun hc => hq ⟨hc.2.1, hc.2.2⟩)]
        rcases Decidable.not_and_iff_or_not.mp hq with hq1 | hq2
        · simp [List.filter_cons, hq1]
        · simp [List.filter_cons, hq2]
    · rw [if_neg hmem, if_neg (fun hc => hmem hc.1)]
      simp
  rw [hpre] at hperm
  by_cases hmem : d ∈ keysOf (aggCounts files)
      ∧ min_votes ≤ totalVotes files d ∧ totalVotes files d ≤ max_votes
  · rw [if_pos hmem] at hperm ⊢
    exact List.perm_singleton.mp hperm
  · rw [if_neg hmem] at hperm ⊢
    exact hperm.eq_nil

theorem keysOf_foldl_encounter (rows : List (List Char × Int)) :
    ∀ c, keysOf (rows.foldl addRow c) =
      (rows.map (fun p => p.1)).foldl
        (fun acc d => if d ∈ acc then acc else acc ++ [d]) (keysOf c) := by
  induction rows with
  | nil => intro c; rfl
  | cons p ps ih =>
    intro c
    rw [List.map_cons, List.foldl_cons, List.foldl_cons, ih]
    congr 1
    exact keysOf_addVotes c p.1 p.2

theorem keysOf_aggCounts_encounter (files : List RawFile) :
    keysOf (aggCounts files) = encounterOrder files := by
  rw [aggCounts_eq, keysOf_foldl_encounter]
  rfl

theorem addVotes_ne_nil (c : List (List Char × Int)) (d : List Char) (v : Int) :
    addVotes c d v ≠ [] := by
  cases c with
  | nil => simp [addVotes]
  | cons p rest =>
    obtain ⟨a, b⟩ := p
    by_cases h : a = d <;> simp [addVotes, h]

theorem foldl_addRow_nil (rows : List (List Char × Int)) :
    ∀ c, rows.foldl addRow c = [] → c = [] ∧ rows = [] := by
  induction rows with
  | nil => intro c h; exact ⟨h, rfl⟩
  | cons p ps ih =>
    intro c h
    rw [List.foldl_cons] at h
    rcases ih _ h with ⟨h1, _⟩
    exact absurd h1 (addVotes_ne_nil c p.1 p.2)

theorem aggCounts_nil_iff (files : List RawFile) :
    aggCounts files = [] ↔ allRows files = [] := by
  rw [aggCounts_eq]
  constructor
  · intro h; exact (foldl_addRow_nil _ _ h).2
  · intro h; rw [h]; rfl

theorem allRows_perm (files files' : List RawFile) (hp : files.Perm files') :
    (allRows files).Perm (allRows files') :=
  hp.flatMap_right filePrimaryRows

/-- C1: every record of the aggregator's output carries as its vote total
the sum, over all input files, of that description's parsed vote
contributions (unparseable vote cells contributing 0). -/
theorem C1_output_vote_totals (files : List RawFile) (min_votes max_votes : Int)
    (r : FeedbackRecord)
    (h : r ∈ (compare_retrospectives files min_votes max_votes).1) :
    r.votes = totalVotes files r.feedback := by
  by_cases hne : aggCounts files = []
  · rw [compare_fst_of_nil files min_votes max_votes hne] at h
    have hr := List.mem_singleton.mp h
    subst hr
    show (0 : Int) = totalVotes files sentinelText
    rw [← rowsSum_allRows, (aggCounts_nil_iff files).mp hne]
    rfl
  · rw [compare_fst_of_ne files min_votes max_votes hne] at h
    have hmem := (sortDesc_perm _).mem_iff.mp h
    have hc := mem_preFiltered files min_votes max_votes r hmem
    exact mem_aggCounts_votes files r.feedback r.votes hc.1

theorem C1_witness :
    (⟨"X".data, none, (7 : Int)⟩ : FeedbackRecord)
        ∈ (compare_retrospectives [fileA, fileB] 0 100).1
    ∧ (7 : Int) = totalVotes [fileA, fileB] "X".data :=
  ⟨by decide,
   C1_output_vote_totals [fileA, fileB] 0 100 ⟨"X".data, none, 7⟩ (by decide)⟩

/-- C2 (counterexample): a file whose Work Items section read on its own
yields the mapping X to 12, but which lacks the primary marker, is
skipped entirely: no task id is recorded and only a warning is logged. -/
theorem C2_counterexample :
    workScanSpec fileC2 = [("X".data, "12".data)]
    ∧ (processFile initState fileC2).tasks = []
    ∧ (processFile initState fileC2).logs = [Outcome.warnNoHeader "w.csv"]
    ∧ aggTasks [fileC2] = [] := by decide

/-- C2 (amended): the Work Items section is scanned only when the primary
stage succeeds; a file lacking the primary marker, failing the primary
parse, or missing the required columns is skipped whole — it records
neither task ids nor votes. -/
theorem C2_amended_primary_gate (st : AggState) (f : RawFile)
    (hprim : primaryStage f = none) :
    (processFile st f).tasks = st.tasks ∧ (processFile st f).counts = st.counts := by
  rw [processFile_eq]
  unfold primaryStage at hprim
  refine ⟨?_, ?_⟩ <;>
  · show List.foldl _ _ _ = _
    cases h1 : findMarker (linesOf f.content) primaryMarker with
    | none => simp [fileWorkRows, filePrimaryRows, h1]
    | some hIdx =>
      simp only [h1] at hprim
      cases h2 : readCsv (linesOf f.content) hIdx with
      | error e2 => simp [fileWorkRows, filePrimaryRows, h1, h2]
      | ok csv =>
        simp only [h2] at hprim
        cases h3 : colIndex csv descName with
        | none => simp [fileWorkRows, filePrimaryRows, h1, h2, h3]
        | some di =>
          simp only [h3] at hprim
          cases h4 : colIndex csv votesName with
          | none => simp [fileWorkRows, filePrimaryRows, h1, h2, h3, h4]
          | some vi =>
            simp only [h4] at hprim
            cases hnf : hasNonFinite csv di vi with
            | true => simp [fileWorkRows, filePrimaryRows, h1, h2, h3, h4, hnf]
            | false => simp [hnf] at hprim

theorem C2_amended_witness :
    primaryStage fileC2 = none
    ∧ ((processFile initState fileC2).tasks = []
        ∧ (processFile initState fileC2).counts = []) :=
  ⟨by decide, C2_amended_primary_gate initState fileC2 (by decide)⟩

/-- C3 (counterexample): with an accumulated entry (X, 3) and filter
bounds [10, 100], the aggregator returns the empty list, not the sentinel
record. -/
theorem C3_counterexample :
    aggCounts [fileA] = [("X".data, (3 : Int))]
    ∧ (compare_retrospectives [fileA] 10 100).1 = [] := by decide

/-- C3 (amended): the zero-results-after-filtering state returns an empty
list; only the zero-entries-accumulated state goes through the sentinel
record. -/
theorem C3_amended_empty (files : List RawFile) (min_votes max_votes : Int)
    (hne : aggCounts files ≠ [])
    (hall : ∀ p ∈ aggCounts files, ¬ (min_votes ≤ p.2 ∧ p.2 ≤ max_votes)) :
    (compare_retrospectives files min_votes max_votes).1 = [] := by
  rw [compare_fst_of_ne files min_votes max_votes hne]
  have hf : (aggState files).counts.filter
      (fun p => decide (min_votes ≤ p.2) && decide (p.2 ≤ max_votes)) = [] := by
    rw [List.filter_eq_nil_iff]
    intro p hp hcond
    simp only [Bool.and_eq_true, decide_eq_true_eq] at hcond
    exact hall p hp hcond
  unfold preFiltered filteredOf
  rw [hf]
  rfl

theorem C3_amended_witness :
    (aggCounts [fileA] ≠ [])
    ∧ (compare_retrospectives [fileA] 10 100).1 = [] :=
  ⟨by decide, C3_amended_empty [fileA] 10 100 (by decide) (by decide)⟩

/-- C4: when no feedback entries were accumulated over the whole batch,
the aggregator returns exactly the single sentinel record, whatever the
filter bounds are. -/
theorem C4_sentinel_only (files : List RawFile) (min_votes max_votes : Int)
    (h : aggCounts files = []) :
    (compare_retrospectives files min_votes max_votes).1
      = [⟨sentinelText, none, 0⟩] :=
  compare_fst_of_nil files min_votes max_votes h

theorem C4_witness :
    aggCounts [fileNone] = []
    ∧ (compare_retrospectives [fileNone] 50 10).1 = [⟨sentinelText, none, 0⟩] :=
  ⟨by decide, C4_sentinel_only [fileNone] 50 10 (by decide)⟩

/-- C5: the output is sorted by votes in descending order; records with
equal vote totals keep the order of the pre-sort filtered list, whose
descriptions appear in first-encounter order across the files. -/
theorem C5_sorted_stable (files : List RawFile) (min_votes max_votes : Int)
    (h : aggCounts files ≠ []) :
    List.Chain' (fun a b => b.votes ≤ a.votes)
      (compare_retrospectives files min_votes max_votes).1
    ∧ (∀ v : Int,
        (compare_retrospectives files min_votes max_votes).1.filter
            (fun r => r.votes = v)
          = (preFiltered files min_votes max_votes).filter (fun r => r.votes = v))
    ∧ List.Sublist ((preFiltered files min_votes max_votes).map (fun r => r.feedback))
        (encounterOrder files) := by
  refine ⟨?_, ?_, ?_⟩
  · rw [compare_fst_of_ne files min_votes max_votes h]
    exact sortDesc_chain _
  · intro v
    rw [compare_fst_of_ne files min_votes max_votes h, sortDesc_filter_votes]
  · unfold preFiltered filteredOf
    rw [List.map_map]
    have hmap : ((aggState files).counts.filter
        (fun p => decide (min_votes ≤ p.2) && decide (p.2 ≤ max_votes))).map
          ((fun r : FeedbackRecord => r.feedback) ∘
            (fun p : List Char × Int =>
              (⟨p.1, getTask (aggState files).tasks p.1, p.2⟩ : FeedbackRecord)))
        = ((aggState files).counts.filter
            (fun p => decide (min_votes ≤ p.2) && decide (p.2 ≤ max_votes))).map
              (fun p => p.1) := rfl
    rw [hmap, ← keysOf_aggCounts_encounter]
    exact List.Sublist.map (fun p : List Char × Int => p.1)
      (List.filter_sublist (aggState files).counts)

theorem C5_witness :
    (aggCounts [fileA, fileB, fileC] ≠ [])
    ∧ (List.Chain' (fun a b => b.votes ≤ a.votes)
        (compare_retrospectives [fileA, fileB, fileC] 0 100).1
      ∧ (∀ v : Int,
          (compare_retrospectives [fileA, fileB, fileC] 0 100).1.filter
              (fun r => r.votes = v)
            = (preFiltered [fileA, fileB, fileC] 0 100).filter (fun r => r.votes = v))
      ∧ List.Sublist ((preFiltered [fileA, fileB, fileC] 0 100).map (fun r => r.feedback))
          (encounterOrder [fileA, fileB, fileC])) :=
  ⟨by decide, C5_sorted_stable [fileA, fileB, fileC] 0 100 (by decide)⟩

/-- C6: permuting the input files leaves every description's output vote
total unchanged: the output records for a description carry the same
votes whatever the file order. -/
theorem C6_perm_invariant (files files' : List RawFile) (min_votes max_votes : Int)
    (hp : files.Perm files') (d : List Char) :
    ((compare_retrospectives files min_votes max_votes).1.filter
        (fun r => r.feedback = d)).map (fun r => r.votes)
      = ((compare_retrospectives files' min_votes max_votes).1.filter
        (fun r => r.feedback = d)).map (fun r => r.votes) := by
  have hall := allRows_perm files files' hp
  by_cases hnil : aggCounts files = []
  · have hnil' : aggCounts files' = [] := by
      rw [aggCounts_nil_iff] at hnil ⊢
      rw [hnil] at hall
      exact (hall.symm).eq_nil
    rw [compare_fst_of_nil files min_votes max_votes hnil,
        compare_fst_of_nil files' min_votes max_votes hnil']
  · have hnil' : aggCounts files' ≠ [] := by
      intro hc
      apply hnil
      rw [aggCounts_nil_iff] at hc ⊢
      rw [hc] at hall
      exact hall.eq_nil
    rw [out_filter_eq files min_votes max_votes d hnil,
        out_filter_eq files' min_votes max_votes d hnil']
    have htv : totalVotes files d = totalVotes files' d := by
      rw [← rowsSum_allRows, ← rowsSum_allRows]
      exact ((hall.filter _).map _).sum_eq
    have hmemiff : (d ∈ keysOf (aggCounts files)) ↔ (d ∈ keysOf (aggCounts files')) := by
      rw [mem_keysOf_aggCounts, mem_keysOf_aggCounts]
      exact (hall.map _).mem_iff
    rw [htv]
    by_cases hc : d ∈ keysOf (aggCounts files')
        ∧ min_votes ≤ totalVotes files' d ∧ totalVotes files' d ≤ max_votes
    · rw [if_pos hc, if_pos ⟨hmemiff.mpr hc.1, hc.2⟩]
    · rw [if_neg hc, if_neg (fun hcc => hc ⟨hmemiff.mp hcc.1, hcc.2⟩)]

theorem C6_witness :
    List.Perm [fileA, fileB] [fileB, fileA]
    ∧ ((compare_retrospectives [fileA, fileB] 0 100).1.filter
          (fun r => r.feedback = "X".data)).map (fun r => r.votes)
        = ((compare_retrospectives [fileB, fileA] 0 100).1.filter
          (fun r => r.feedback = "X".data)).map (fun r => r.votes) :=
  ⟨by decide, C6_perm_invariant [fileA, fileB] [fileB, fileA] 0 100 (by decide) "X".data⟩

/-- C7: task-id attachment is last-write-wins: every record of the
(non-sentinel) output carries the work item id of the last recorded Work
Items row for its description, and an absent id when no row ever supplied
one. -/
theorem C7_last_write_wins (files : List RawFile) (min_votes max_votes : Int)
    (r : FeedbackRecord) (hne : aggCounts files ≠ [])
    (h : r ∈ (compare_retrospectives files min_votes max_votes).1) :
    r.task = lastWrite (allWork files) r.feedback := by
  rw [compare_fst_of_ne files min_votes max_votes hne] at h
  have hmem := (sortDesc_perm _).mem_iff.mp h
  have hc := mem_preFiltered files min_votes max_votes r hmem
  rw [hc.2.2.2, getTask_aggTasks]

theorem C7_witness :
    (aggCounts [fileW1, fileW2] ≠ []
      ∧ (⟨"X".data, some "99".data, (7 : Int)⟩ : FeedbackRecord)
          ∈ (compare_retrospectives [fileW1, fileW2] 1 100).1)
    ∧ some "99".data = lastWrite (allWork [fileW1, fileW2]) "X".data :=
  ⟨⟨by decide, by decide⟩,
   C7_last_write_wins [fileW1, fileW2] 1 100 ⟨"X".data, some "99".data, 7⟩
     (by decide) (by decide)⟩

/-- C8 (counterexample): vote coercion can raise and abort a file: in
fileInf the votes cell inf (and likewise an overflowing numeral such as
1e999) coerces to a non-finite value, the integer cast raises, the file
records an error outcome, and even its parseable row (X, 3) is
discarded. -/
theorem C8_counterexample :
    coerceVote "inf".data = Coerced.infinite
    ∧ coerceVote "1e999".data = Coerced.infinite
    ∧ (processFile initState fileInf).logs = [Outcome.errorMsg "inf.csv" intCastMsg]
    ∧ aggCounts [fileInf] = []
    ∧ (compare_retrospectives [fileInf] 0 100).1 = [⟨sentinelText, none, 0⟩] := by
  decide

/-- C8 (amended): rows with a missing description or votes cell are
dropped, and a votes cell coercing to a missing value silently
contributes 0; but when some surviving votes cell coerces to a non-finite
value, the integer cast raises and the file is aborted with a caught
error outcome, contributing nothing; otherwise the coercion completes and
the file's pairs are accumulated. -/
theorem C8_amended_coercion (st : AggState) (f : RawFile) (hIdx di vi : Nat)
    (csv : Csv)
    (h1 : findMarker (linesOf f.content) primaryMarker = some hIdx)
    (h2 : readCsv (linesOf f.content) hIdx = .ok csv)
    (h3 : colIndex csv descName = some di)
    (h4 : colIndex csv votesName = some vi) :
    (∀ row ∈ csv.rows, (row.getD di none = none ∨ row.getD vi none = none) →
        rowPair di vi row = none)
    ∧ (∀ row ∈ csv.rows, ∀ d v, row.getD di none = some d →
        row.getD vi none = some v → coerceVote v = Coerced.nan →
        rowPair di vi row = some (d, 0))
    ∧ (hasNonFinite csv di vi = true →
        processFile st f
          = { st with logs := st.logs ++ [Outcome.errorMsg f.name intCastMsg] })
    ∧ (hasNonFinite csv di vi = false →
        (processFile st f).counts = (primaryPairs csv di vi).foldl addRow st.counts) := by
  refine ⟨?_, ?_, ?_, ?_⟩
  · intro row hrow h
    unfold rowPair rowCells
    cases hd : row.getD di none with
    | none => rfl
    | some d =>
      cases hv : row.getD vi none with
      | none => rfl
      | some v =>
        exfalso
        rcases h with h | h
        · rw [h] at hd; exact Option.noConfusion hd
        · rw [h] at hv; exact Option.noConfusion hv
  · intro row hrow d v hd hv hnan
    unfold rowPair rowCells
    rw [hd, hv]
    show some (d, votesToInt v) = some (d, 0)
    unfold votesToInt
    rw [hnan]
  · intro hnf
    simp [processFile, h1, h2, h3, h4, hnf]
  · intro hnf
    rw [processFile_eq]
    show (filePrimaryRows f).foldl addRow st.counts = _
    have hrows : filePrimaryRows f = primaryPairs csv di vi := by
      simp [filePrimaryRows, h1, h2, h3, h4, hnf]
    rw [hrows]

theorem C8_witness :
    rowPair 1 2 [some "B".data, none, some "5".data] = none
    ∧ rowPair 1 2 [some "C".data, some "Y".data, some "abc".data] = some ("Y".data, 0)
    ∧ (processFile initState fileMix).counts = (primaryPairs csvMix 1 2).foldl addRow [] :=
  ⟨(C8_amended_coercion initState fileMix 0 1 2 csvMix (by decide) rfl
      (by decide) (by decide)).1
      [some "B".data, none, some "5".data] (by decide) (Or.inl rfl),
   (C8_amended_coercion initState fileMix 0 1 2 csvMix (by decide) rfl
      (by decide) (by decide)).2.1
      [some "C".data, some "Y".data, some "abc".data] (by decide)
      "Y".data "abc".data rfl rfl (by decide),
   (C8_amended_coercion initState fileMix 0 1 2 csvMix (by decide) rfl
      (by decide) (by decide)).2.2.2 (by decide)⟩

/-- C9: with the nonnegative lower bound the interface guarantees, every
record of the aggregator's output has a nonnegative vote total, whatever
the input batch holds (negative vote rows included). -/
theorem C9_output_nonneg (files : List RawFile) (min_votes max_votes : Int)
    (hmn : 0 ≤ min_votes) (r : FeedbackRecord)
    (h : r ∈ (compare_retrospectives files min_votes max_votes).1) :
    0 ≤ r.votes := by
  by_cases hne : aggCounts files = []
  · rw [compare_fst_of_nil files min_votes max_votes hne] at h
    have hr := List.mem_singleton.mp h
    subst hr
    exact le_refl 0
  · rw [compare_fst_of_ne files min_votes max_votes hne] at h
    have hmem := (sortDesc_perm _).mem_iff.mp h
    have hc := mem_preFiltered files min_votes max_votes r hmem
    exact le_trans hmn hc.2.1

theorem C9_witness :
    ((0 : Int) ≤ 0
      ∧ (⟨"X".data, none, (9 : Int)⟩ : FeedbackRecord)
          ∈ (compare_retrospectives [fileNeg] 0 100).1)
    ∧ (0 : Int) ≤ (9 : Int) :=
  ⟨⟨by decide, by decide⟩,
   C9_output_nonneg [fileNeg] 0 100 (by decide) ⟨"X".data, none, 9⟩ (by decide)⟩

/-- C10: per-file handling is not atomic: when the primary stage of a
file succeeded but the Work Items parse raises, the error outcome is
logged, the task map is left untouched, and the votes already accumulated
from the file's primary rows remain in the running totals. -/
theorem C10_no_rollback (st : AggState) (f : RawFile) (wIdx : Nat) (e : String)
    (hprim : (primaryStage f).isSome = true)
    (h5 : findMarker (linesOf f.content) workMarker = some wIdx)
    (h6 : readCsv (linesOf f.content) wIdx = .error e) :
    (processFile st f).logs = st.logs ++ [Outcome.errorMsg f.name e]
    ∧ (∀ d, rowsSum (processFile st f).counts d = rowsSum st.counts d + fileVotes f d)
    ∧ (processFile st f).tasks = st.tasks := by
  have hrows : ∀ d, rowsSum (processFile st f).counts d
      = rowsSum st.counts d + fileVotes f d := by
    intro d
    rw [processFile_eq]
    show rowsSum ((filePrimaryRows f).foldl addRow st.counts) d = _
    rw [rowsSum_foldl]
    rfl
  refine ⟨?_, hrows, ?_⟩
  · rw [processFile_eq]
    show st.logs ++ [fileLog f] = _
    unfold primaryStage at hprim
    unfold fileLog
    cases h1 : findMarker (linesOf f.content) primaryMarker with
    | none => simp [h1] at hprim
    | some hIdx =>
      simp only [h1] at hprim
      cases h2 : readCsv (linesOf f.content) hIdx with
      | error e2 => simp [h2] at hprim
      | ok csv =>
        simp only [h2] at hprim
        cases h3 : colIndex csv descName with
        | none => simp [h3] at hprim
        | some di =>
          simp only [h3] at hprim
          cases h4 : colIndex csv votesName with
          | none => simp [h4] at hprim
          | some vi =>
            simp only [h4] at hprim
            cases hnf : hasNonFinite csv di vi with
            | true => simp [hnf] at hprim
            | false => simp [h1, h2, h3, h4, hnf, h5, h6]
  · rw [processFile_eq]
    show (fileWorkRows f).foldl putTask st.tasks = st.tasks
    unfold primaryStage at hprim
    unfold fileWorkRows
    cases h1 : findMarker (linesOf f.content) primaryMarker with
    | none => simp [h1] at hprim
    | some hIdx =>
      simp only [h1] at hprim
      cases h2 : readCsv (linesOf f.content) hIdx with
      | error e2 => simp [h2] at hprim
      | ok csv =>
        simp only [h2] at hprim
        cases h3 : colIndex csv descName with
        | none => simp [h3] at hprim
        | some di =>
          simp only [h3] at hprim
          cases h4 : colIndex csv votesName with
          | none => simp [h4] at hprim
          | some vi =>
            simp only [h4] at hprim
            cases hnf : hasNonFinite csv di vi with
            | true => simp [hnf] at hprim
            | false => simp [h1, h2, h3, h4, hnf, h5, h6]

theorem C10_witness :
    ((processFile initState fileX).logs
        = [Outcome.errorMsg "x.csv" "Error tokenizing data"]
      ∧ (∀ d, rowsSum (processFile initState fileX).counts d
          = rowsSum initState.counts d + fileVotes fileX d)
      ∧ (processFile initState fileX).tasks = [])
    ∧ fileVotes fileX "X".data = 3 :=
  ⟨C10_no_rollback initState fileX 2 "Error tokenizing data"
      (by decide) (by decide) rfl,
   by decide⟩
